import Mathlib

/-!
Verification of the amxmodx-tools core pipeline: container parsing
(`amxmodx/file.rs`), module header parsing and segment/symbol access
(`amxmod/plugin.rs`, `amxmod/plugin/try_from_vec_u8.rs`), the instruction
decoder driver (`Plugin::opcodes`) and the structural reconstructor
(`ast/plugin.rs`).

Byte buffers are modelled as `List Nat` (each element a byte value).
Rust operations that can panic (slice indexing out of range, `unwrap`,
`usize` subtraction overflow) are modelled by returning `none`; fallible
operations returning `Result` are modelled with `Except` carrying the
literal error data of the source.
-/

instance {ε α : Type} [DecidableEq ε] [DecidableEq α] : DecidableEq (Except ε α) := fun a b =>
  match a, b with
  | Except.error e, Except.error f =>
    if h : e = f then isTrue (by rw [h]) else isFalse (fun c => h (by cases c; rfl))
  | Except.ok x, Except.ok y =>
    if h : x = y then isTrue (by rw [h]) else isFalse (fun c => h (by cases c; rfl))
  | Except.error _, Except.ok _ => isFalse (fun c => Except.noConfusion c)
  | Except.ok _, Except.error _ => isFalse (fun c => Except.noConfusion c)

/-- Little-endian value of a byte list: `leBytes [b0, b1, ...] = b0 + 256*b1 + ...`. -/
def leBytes (l : List Nat) : Nat :=
  l.foldr (fun b acc => b + 256 * acc) 0

/-- Read an `n`-byte little-endian integer at byte offset `off`, as
`byteorder`'s `read_uN` on a `Cursor`: fails (EOF) if fewer than `n`
bytes remain. -/
def readLE (bin : List Nat) (off n : Nat) : Option Nat :=
  if off + n ≤ bin.length then some (leBytes ((bin.drop off).take n)) else none

/-- The 4-byte little-endian word at offset `off` (total function used in
specification-side statements; reads past the end are zero-padded). -/
def readLE32 (bin : List Nat) (off : Nat) : Nat :=
  leBytes ((bin.drop off).take 4)

/-- The 2-byte little-endian word at offset `off`. -/
def readLE16 (bin : List Nat) (off : Nat) : Nat :=
  leBytes ((bin.drop off).take 2)

/-- The byte at offset `off` (zero past the end). -/
def byteAt (bin : List Nat) (off : Nat) : Nat :=
  leBytes ((bin.drop off).take 1)

namespace Amxmodx

/-- `File` of `amxmodx/file.rs`: the container header, keeping the whole
buffer and the parsed section count. -/
structure File where
  bin : List Nat
  sections : Nat
deriving DecidableEq

/-- `File::MAGIC` of `amxmodx/file.rs`. -/
def File.MAGIC : Nat := 0x414d5858

/-- `File::COMPATIBLE_VERSION` of `amxmodx/file.rs`. -/
def File.COMPATIBLE_VERSION : Nat := 768

/-- `File::from` of `amxmodx/file.rs`: read a 4-byte LE magic, a 2-byte LE
version and a 1-byte section count in order, with the source's literal
error strings on EOF or on the first violated field. -/
def File.from_bytes (bin : List Nat) : Except String File :=
  if bin.length < 4 then Except.error "Magic EOF"
  else if leBytes (bin.take 4) ≠ File.MAGIC then Except.error "Invalid file magic"
  else if bin.length < 6 then Except.error "Version EOF"
  else if leBytes ((bin.drop 4).take 2) ≠ File.COMPATIBLE_VERSION then
    Except.error "Incompatible file version"
  else if bin.length < 7 then Except.error "Sections EOF"
  else if leBytes ((bin.drop 6).take 1) < 1 then Except.error "Zero sections amount"
  else if 2 < leBytes ((bin.drop 6).take 1) then
    Except.error "More than two sections (malicious file?)"
  else Except.ok { bin := bin, sections := leBytes ((bin.drop 6).take 1) }

end Amxmodx

/-- `slice::chunks(4)` specialised to the source's `CELLSIZE = 4`:
splits a byte list into consecutive groups of four, the last group
possibly shorter, never empty. -/
def chunks4 : List Nat → List (List Nat)
  | [] => []
  | a :: b :: c :: d :: rest => [a, b, c, d] :: chunks4 rest
  | l => [l]

/-- `slice::chunks(8)` as used for the 8-byte symbol-table records. -/
def chunks8 : List Nat → List (List Nat)
  | [] => []
  | a :: b :: c :: d :: e :: f :: g :: h :: rest => [a, b, c, d, e, f, g, h] :: chunks8 rest
  | l => [l]

/-- Specification-side description of the constant encoding (§4.2 of the
spec): the first byte of each consecutive 4-byte group of a byte list. -/
def strideHeads : List Nat → List Nat
  | [] => []
  | [a] => [a]
  | [a, _] => [a]
  | [a, _, _] => [a]
  | a :: _ :: _ :: _ :: rest => a :: strideHeads rest

namespace Amxmod

/-- `AmxParseError` of `amxmod/plugin.rs`: mismatch errors carry the
expected and the actual value; `truncated` carries the `context` string
naming the field being read. -/
inductive AmxParseError where
  | truncated (field : String)
  | invalidMagic (expected actual : Nat)
  | invalidFileVersion (expected actual : Nat)
  | invalidAmxVersion (expected actual : Nat)
deriving DecidableEq

/-- `Plugin` of `amxmod/plugin.rs`: the parsed module header fields plus
the owned raw buffer. -/
structure Plugin where
  flags : Nat
  defsize : Nat
  cod : Nat
  dat : Nat
  hea : Nat
  stp : Nat
  cip : Nat
  publics : Nat
  natives : Nat
  libraries : Nat
  pubvars : Nat
  tags : Nat
  nametable : Nat
  bin : List Nat
deriving DecidableEq

/-- `AMXMOD_MAGIC` of `amxmod/plugin.rs`. -/
def AMXMOD_MAGIC : Nat := 0xF1E0

/-- `FILE_VERSION` of `amxmod/plugin.rs`. -/
def FILE_VERSION : Nat := 8

/-- `AMX_VERSION` of `amxmod/plugin.rs`. -/
def AMX_VERSION : Nat := 8

/-- `CELLSIZE` of `amxmod/plugin.rs`. -/
def CELLSIZE : Nat := 4

/-- `Plugin::from` of `amxmod/plugin.rs` (the `try_from` of
`amxmod/plugin/try_from_vec_u8.rs` is the identical logic): sequential
little-endian cursor reads of size (u32 at 0), magic (u16 at 4), file
version (u8 at 6), amx version (u8 at 7), flags (u16 at 8), defsize
(u16 at 10) and the eleven u32 segment/table offsets at 12..52, each
read failing with its `context` string on EOF, and magic and the two
versions checked against their constants. -/
def Plugin.from_bytes (bin : List Nat) : Except AmxParseError Plugin :=
  if bin.length < 4 then Except.error (AmxParseError.truncated "EOF on amx size")
  else if bin.length < 6 then Except.error (AmxParseError.truncated "EOF on amx magic")
  else if readLE16 bin 4 ≠ AMXMOD_MAGIC then
    Except.error (AmxParseError.invalidMagic AMXMOD_MAGIC (readLE16 bin 4))
  else if bin.length < 7 then Except.error (AmxParseError.truncated "EOF on amx file version")
  else if byteAt bin 6 ≠ FILE_VERSION then
    Except.error (AmxParseError.invalidFileVersion FILE_VERSION (byteAt bin 6))
  else if bin.length < 8 then Except.error (AmxParseError.truncated "EOF on amx version")
  else if byteAt bin 7 ≠ AMX_VERSION then
    Except.error (AmxParseError.invalidAmxVersion AMX_VERSION (byteAt bin 7))
  else if bin.length < 10 then Except.error (AmxParseError.truncated "EOF on amx flags")
  else if bin.length < 12 then Except.error (AmxParseError.truncated "EOF on amx defsize")
  else if bin.length < 16 then Except.error (AmxParseError.truncated "EOF on amx cod")
  else if bin.length < 20 then Except.error (AmxParseError.truncated "EOF on amx dat")
  else if bin.length < 24 then Except.error (AmxParseError.truncated "EOF on amx hea")
  else if bin.length < 28 then Except.error (AmxParseError.truncated "EOF on amx stp")
  else if bin.length < 32 then Except.error (AmxParseError.truncated "EOF on amx cip")
  else if bin.length < 36 then Except.error (AmxParseError.truncated "EOF on amx publics")
  else if bin.length < 40 then Except.error (AmxParseError.truncated "EOF on amx natives")
  else if bin.length < 44 then Except.error (AmxParseError.truncated "EOF on amx libraries")
  else if bin.length < 48 then Except.error (AmxParseError.truncated "EOF on amx pubvars")
  else if bin.length < 52 then Except.error (AmxParseError.truncated "EOF on amx tags")
  else if bin.length < 56 then Except.error (AmxParseError.truncated "EOF on amx nametable")
  else Except.ok
    { flags := readLE16 bin 8, defsize := readLE16 bin 10, cod := readLE32 bin 12,
      dat := readLE32 bin 16, hea := readLE32 bin 20, stp := readLE32 bin 24,
      cip := readLE32 bin 28, publics := readLE32 bin 32, natives := readLE32 bin 36,
      libraries := readLE32 bin 40, pubvars := readLE32 bin 44, tags := readLE32 bin 48,
      nametable := readLE32 bin 52, bin := bin }

/-- `Plugin::cod_slice` of `amxmod/plugin.rs`: `&bin[cod..cod + (dat - cod)]`
with no error handling. `none` models the panic: the `usize` subtraction
`dat - cod` overflows when `dat < cod`, and the slice indexing panics when
the range leaves the buffer. -/
def cod_slice (p : Plugin) : Option (List Nat) :=
  if p.cod ≤ p.dat ∧ p.dat ≤ p.bin.length then
    some ((p.bin.drop p.cod).take (p.dat - p.cod))
  else none

/-- `Plugin::dat_size` of `amxmod/plugin.rs`: `hea - dat` (callers must
establish `dat ≤ hea`; the `usize` subtraction panics below that). -/
def dat_size (p : Plugin) : Nat := p.hea - p.dat

/-- `Plugin::is_addr_in_dat` of `amxmod/plugin.rs` — note the `<=`. -/
def is_addr_in_dat (p : Plugin) (addr : Nat) : Bool := addr ≤ dat_size p

/-- `Plugin::dat_slice` of `amxmod/plugin.rs`: `&bin[dat..dat + dat_size]`;
`none` models the slice-indexing panic when the range leaves the buffer. -/
def dat_slice (p : Plugin) : Option (List Nat) :=
  if p.dat ≤ p.hea ∧ p.hea ≤ p.bin.length then
    some ((p.bin.drop p.dat).take (dat_size p))
  else none

/-- `Plugin::read_constant_auto_type` of `amxmod/plugin.rs`: bounds-check
the address with `is_addr_in_dat`, then collect the first byte of every
`CELLSIZE`-byte chunk of `dat_slice()[addr..]` up to the first zero byte.
`none` models the panics: the `dat_size` subtraction underflow when
`hea < dat` (reached via `is_addr_in_dat` before any check) and the
`dat_slice` indexing panic. The `Ok` payload is the byte content of the
returned `CString`. -/
def read_constant_auto_type (p : Plugin) (addr : Nat) : Option (Except String (List Nat)) :=
  if p.hea < p.dat then none
  else if ¬ is_addr_in_dat p addr then some (Except.error "Invalid constant addr")
  else
    match dat_slice p with
    | none => none
    | some ds =>
      some (Except.ok (((chunks4 (ds.drop addr)).map (fun c => c.headD 0)).takeWhile (fun b => b ≠ 0)))

/-- `Native` of the `amxmod` module (shape used by `plugin.rs`): a
null-terminated byte-string name and an address. -/
structure Native where
  name : List Nat
  address : Nat
deriving DecidableEq

/-- `Public`, same shape as `Native`. -/
structure Public where
  name : List Nat
  address : Nat
deriving DecidableEq

/-- Modelled from the spec: `ReadByteString::read_string_zero` (the `util`
module is not in src). Per §4.2, it scans forward for the first zero byte
and materialises the bytes before it, failing (`UnterminatedString`, an
unwrap panic at the call sites in `plugin.rs`) if no zero byte is found
before the buffer end. -/
def read_string_zero (l : List Nat) : Option (List Nat) :=
  if l.contains 0 then some (l.takeWhile (fun b => b ≠ 0)) else none

/-- One 8-byte symbol record of `Plugin::natives`/`Plugin::publics`:
4-byte LE address from `chunk[0..4]`, 4-byte LE name offset from
`chunk[4..8]`, then the name read from `bin[name_offset..]`. `none`
models the panics on a short chunk, an out-of-buffer name offset, or an
unterminated name. -/
def parseSym (bin : List Nat) (ch : List Nat) : Option (Nat × List Nat) :=
  if 8 ≤ ch.length then
    let address := leBytes (ch.take 4)
    let name_offset := leBytes ((ch.drop 4).take 4)
    if name_offset ≤ bin.length then
      (read_string_zero (bin.drop name_offset)).map (fun nm => (address, nm))
    else none
  else none

/-- `Plugin::natives` of `amxmod/plugin.rs`: slice `bin[natives..libraries]`,
chunk it by 8 and decode each record. `none` models the panics (slice out
of range, short record, unwraps inside the map closure). -/
def natives_of (p : Plugin) : Option (List Native) :=
  if p.natives ≤ p.libraries ∧ p.libraries ≤ p.bin.length then
    ((chunks8 ((p.bin.drop p.natives).take (p.libraries - p.natives))).mapM
        (parseSym p.bin)).map
      (List.map (fun r => Native.mk r.2 r.1))
  else none

/-- `Plugin::publics` of `amxmod/plugin.rs`: the identical algorithm over
`bin[publics..natives]`. -/
def publics_of (p : Plugin) : Option (List Public) :=
  if p.publics ≤ p.natives ∧ p.natives ≤ p.bin.length then
    ((chunks8 ((p.bin.drop p.publics).take (p.natives - p.publics))).mapM
        (parseSym p.bin)).map
      (List.map (fun r => Public.mk r.2 r.1))
  else none

/-- Specification-side symbol table (§4.2, §6 of the spec): `k` consecutive
8-byte records starting at absolute offset `base`, each a 4-byte LE
address followed by a 4-byte LE offset of a null-terminated name. -/
def specSymTable (bin : List Nat) : Nat → Nat → Option (List (Nat × List Nat))
  | _, 0 => some []
  | base, k + 1 =>
    let address := readLE32 bin base
    let name_offset := readLE32 bin (base + 4)
    if name_offset ≤ bin.length then
      match read_string_zero (bin.drop name_offset) with
      | none => none
      | some nm =>
        match specSymTable bin (base + 8) k with
        | none => none
        | some rest => some ((address, nm) :: rest)
    else none

/-- `Opcode` of the `amxmod` module (shape; `amxmod/opcode.rs` is not in
src): the mnemonic tag and the decoded operand cells. Only the fields the
decoder and reconstructor claims need are modelled; the enum of tags is
not in src, so tags are bare numbers. -/
structure Opcode where
  code : Nat
  params : List Nat
deriving DecidableEq

/-- `OpcodeType::OP_PROC` (enum not in src; the value is the AMX opcode
number, only distinctness from the two terminators matters here). -/
def OP_PROC : Nat := 46

/-- `OpcodeType::OP_RETN`. -/
def OP_RETN : Nat := 48

/-- `OpcodeType::OP_BREAK`. -/
def OP_BREAK : Nat := 137

/-- Modelled from the spec: the decoding rule of one mnemonic (§4.3 of the
spec): no operands, one operand cell, or a variable-length table such as
a case-jump table whose cell count is read from the stream itself. -/
inductive DecodeRule where
  | noOperand
  | oneCell
  | caseTable
deriving DecidableEq

/-- Modelled from the spec: `Opcode::read_from` (`amxmod/opcode.rs` is not
in src). Per §4.3, each step reads one 4-byte LE mnemonic tag and looks up
its decoding rule (`rules tag = none` means unknown mnemonic): no-operand
mnemonics consume only the tag and emit one record; one-cell mnemonics
consume one further 4-byte cell; a case-table mnemonic reads a count cell
`n`, consumes `n` further entry cells, and is unrolled into one synthetic
record per entry — so a step may emit zero, one, or several records. An
unknown mnemonic or an operand read past the segment end aborts the whole
decode. `fuel` bounds the loop; every step consumes at least four bytes,
so `fuel = seg.length` never runs out. -/
def decodeLoop (rules : Nat → Option DecodeRule) :
    Nat → List Nat → Except String (List Opcode)
  | _, [] => Except.ok []
  | 0, _ :: _ => Except.error "Truncated"
  | fuel + 1, b :: rest =>
    let seg := b :: rest
    if seg.length < 4 then Except.error "Truncated"
    else
      let tag := leBytes (seg.take 4)
      match rules tag with
      | none => Except.error "UnknownOpcode"
      | some DecodeRule.noOperand =>
        match decodeLoop rules fuel (seg.drop 4) with
        | Except.error e => Except.error e
        | Except.ok tail => Except.ok ({ code := tag, params := [] } :: tail)
      | some DecodeRule.oneCell =>
        if seg.length < 8 then Except.error "Truncated"
        else
          match decodeLoop rules fuel (seg.drop 8) with
          | Except.error e => Except.error e
          | Except.ok tail =>
            Except.ok ({ code := tag, params := [leBytes ((seg.drop 4).take 4)] } :: tail)
      | some DecodeRule.caseTable =>
        if seg.length < 8 then Except.error "Truncated"
        else
          let n := leBytes ((seg.drop 4).take 4)
          if seg.length < 8 + 4 * n then Except.error "Truncated"
          else
            match decodeLoop rules fuel (seg.drop (8 + 4 * n)) with
            | Except.error e => Except.error e
            | Except.ok tail =>
              Except.ok (((chunks4 ((seg.drop 8).take (4 * n))).map
                  (fun c => { code := tag, params := [leBytes c] })) ++ tail)

/-- `Plugin::opcodes` of `amxmod/plugin.rs`: slice the code segment, skip
the two-cell prolog with two unchecked `read_u32` calls (`none` models
their unwrap panic on a segment shorter than 8 bytes, and the `cod_slice`
panic), then run the decode loop to the end of the segment. -/
def opcodes_of (rules : Nat → Option DecodeRule) (p : Plugin) :
    Option (Except String (List Opcode)) :=
  match cod_slice p with
  | none => none
  | some seg =>
    if seg.length < 8 then none
    else some (decodeLoop rules (seg.drop 8).length (seg.drop 8))

end Amxmod

namespace Ast

/-- `Function` of `ast/function.rs` (shape; that file is not in src): the
`OP_PROC` opcode that started the function plus the body elements attached
by the reconstructor. Name resolution against the public table
(`AstFunction::from`) is out of the claims' scope and not modelled. -/
structure Function where
  proc : Amxmod.Opcode
  tree_elements : List Amxmod.Opcode
deriving DecidableEq

/-- Modelled from the spec: `AstFunction::from(&ast_opcode, &public_list)`
(`ast/function.rs` is not in src). Per §4.4 it starts a new, empty
function from the `OP_PROC` opcode. -/
def Function.fromOpcode (op : Amxmod.Opcode) (_publics : List Amxmod.Public) : Function :=
  { proc := op, tree_elements := [] }

/-- `Plugin` of `ast/plugin.rs`: the reconstructed tree, owning the
completed functions in the order they were started. -/
structure Plugin where
  tree_elements : List Function
deriving DecidableEq

/-- The loop body of `Plugin::from_amxmod_plugin` of `ast/plugin.rs`,
with the loop state (completed `functions`, pending `stack`) explicit:
`OP_PROC` appends a new empty function; `OP_BREAK`/`OP_RETN` flushes the
pending stack into the last function (`functions.last_mut().unwrap()` —
`none` models that unwrap's panic when no function is open) and clears
the stack; anything else is pushed onto the pending stack. -/
def reconLoop (publics : List Amxmod.Public) :
    List Function → List Amxmod.Opcode → List Amxmod.Opcode →
    Option (List Function × List Amxmod.Opcode)
  | functions, stack, [] => some (functions, stack)
  | functions, stack, op :: rest =>
    if op.code = Amxmod.OP_PROC then
      reconLoop publics (functions ++ [Function.fromOpcode op publics]) stack rest
    else if op.code = Amxmod.OP_BREAK ∨ op.code = Amxmod.OP_RETN then
      match functions.getLast? with
      | none => none
      | some last =>
        reconLoop publics
          (functions.dropLast ++ [{ last with tree_elements := last.tree_elements ++ stack }])
          [] rest
    else
      reconLoop publics functions (stack ++ [op]) rest

/-- `Plugin::from_amxmod_plugin` of `ast/plugin.rs`, taken at the decoded
instruction sequence (the source first calls `amx_plugin.opcodes().unwrap()`
and `amx_plugin.publics()`): run the reconstruction loop from the empty
state and keep the completed functions, discarding the leftover pending
stack. -/
def from_amxmod_plugin (publics : List Amxmod.Public) (ops : List Amxmod.Opcode) :
    Option Plugin :=
  (reconLoop publics [] [] ops).map (fun st => { tree_elements := st.1 })

/-- The concatenation of all function bodies of a reconstructed tree. -/
def bodies (fns : List Function) : List Amxmod.Opcode :=
  (fns.map Function.tree_elements).flatten

end Ast

namespace Amxmod

/-- Specification-side reading of `read_constant` (§4.2 of the spec): the
first byte of every consecutive 4-byte group of the data segment
(`bin[dat..hea)`) starting at `addr`, up to the first zero byte. -/
def specConstant (p : Plugin) (addr : Nat) : List Nat :=
  (strideHeads ((p.bin.drop (p.dat + addr)).take (dat_size p - addr))).takeWhile
    (fun b => b ≠ 0)

end Amxmod

/-- Module whose data segment is `bin[0..4) = [0,0,0,0]`, so `dat_size = 4`. -/
def c1Plugin : Amxmod.Plugin :=
  { flags := 0, defsize := 0, cod := 0, dat := 0, hea := 4, stp := 0, cip := 0,
    publics := 0, natives := 0, libraries := 0, pubvars := 0, tags := 0,
    nametable := 0, bin := [0, 0, 0, 0] }

/-- Module with `dat < cod` (`cod = 8`, `dat = 4`): the `dat - cod` width
computation of `cod_slice` underflows. -/
def c3BadPlugin : Amxmod.Plugin :=
  { flags := 0, defsize := 0, cod := 8, dat := 4, hea := 12, stp := 0, cip := 0,
    publics := 0, natives := 0, libraries := 0, pubvars := 0, tags := 0,
    nametable := 0, bin := [0, 1, 2, 3, 4, 5, 6, 7, 8, 9, 10, 11, 12, 13, 14, 15] }

/-- Module with `cod = 2 ≤ dat = 5 ≤ len = 6`: `cod_slice` is `bin[2..5)`. -/
def c3GoodPlugin : Amxmod.Plugin :=
  { flags := 0, defsize := 0, cod := 2, dat := 5, hea := 6, stp := 0, cip := 0,
    publics := 0, natives := 0, libraries := 0, pubvars := 0, tags := 0,
    nametable := 0, bin := [10, 11, 12, 13, 14, 15] }

/-- The bytes of `"simple plugin"`. -/
def simplePluginBytes : List Nat :=
  [115, 105, 109, 112, 108, 101, 32, 112, 108, 117, 103, 105, 110]

/-- Module whose data segment starts (after four leading junk bytes of the
code segment) with the one-character-per-cell encoding of
`"simple plugin"` followed by a zero cell. -/
def c4Plugin : Amxmod.Plugin :=
  { flags := 0, defsize := 0, cod := 0, dat := 4, hea := 60, stp := 0, cip := 0,
    publics := 0, natives := 0, libraries := 0, pubvars := 0, tags := 0,
    nametable := 0,
    bin := [9, 9, 9, 9] ++ (simplePluginBytes.map (fun c => [c, 0, 0, 0])).flatten ++ [0, 0, 0, 0] }

/-- Module with one native record at `[0, 8)`: address `1`, name offset `8`
pointing at the null-terminated name `"ab"`. -/
def c8Plugin : Amxmod.Plugin :=
  { flags := 0, defsize := 0, cod := 0, dat := 0, hea := 0, stp := 0, cip := 0,
    publics := 0, natives := 0, libraries := 8, pubvars := 0, tags := 0,
    nametable := 0, bin := [1, 0, 0, 0, 8, 0, 0, 0, 97, 98, 0] }

/-- Example instruction sequence: one function start, one ordinary
instruction, one return. -/
def c5ExampleOps : List Amxmod.Opcode :=
  [{ code := Amxmod.OP_PROC, params := [] }, { code := 0, params := [] },
   { code := Amxmod.OP_RETN, params := [] }]

/-- The tree reconstructed from `c5ExampleOps`: one function owning the
one ordinary instruction. -/
def c5ExampleTree : Ast.Plugin :=
  { tree_elements := [{ proc := { code := Amxmod.OP_PROC, params := [] },
                        tree_elements := [{ code := 0, params := [] }] }] }

/-- Decode-rule table for the decoder witness: mnemonic `1` takes one
operand cell, mnemonic `2` is a case table, mnemonic `3` has no operands,
everything else is unknown. -/
def c7Rules : Nat → Option Amxmod.DecodeRule := fun t =>
  if t = 1 then some Amxmod.DecodeRule.oneCell
  else if t = 2 then some Amxmod.DecodeRule.caseTable
  else if t = 3 then some Amxmod.DecodeRule.noOperand
  else none

/-- Code-segment bytes for the decoder witness: a no-operand instruction,
a one-cell instruction, and a two-entry case table. -/
def c7Seg : List Nat :=
  [3, 0, 0, 0, 1, 0, 0, 0, 7, 0, 0, 0,
   2, 0, 0, 0, 2, 0, 0, 0, 10, 0, 0, 0, 20, 0, 0, 0]

/-! ## Helper lemmas -/

theorem chunks4_eq (l : List Nat) :
    chunks4 l =
      if l = [] then [] else if 4 ≤ l.length then l.take 4 :: chunks4 (l.drop 4) else [l] := by
  match l with
  | [] => rfl
  | [a] => simp [chunks4]
  | [a, b] => simp [chunks4]
  | [a, b, c] => simp [chunks4]
  | a :: b :: c :: d :: rest => simp [chunks4]

theorem chunks8_eq (l : List Nat) :
    chunks8 l =
      if l = [] then [] else if 8 ≤ l.length then l.take 8 :: chunks8 (l.drop 8) else [l] := by
  match l with
  | [] => rfl
  | [a] => simp [chunks8]
  | [a, b] => simp [chunks8]
  | [a, b, c] => simp [chunks8]
  | [a, b, c, d] => simp [chunks8]
  | [a, b, c, d, e] => simp [chunks8]
  | [a, b, c, d, e, f] => simp [chunks8]
  | [a, b, c, d, e, f, g] => simp [chunks8]
  | a :: b :: c :: d :: e :: f :: g :: h :: rest => simp [chunks8]

theorem chunks4_heads : ∀ l : List Nat, (chunks4 l).map (fun c => c.headD 0) = strideHeads l
  | [] => rfl
  | [_] => rfl
  | [_, _] => rfl
  | [_, _, _] => rfl
  | a :: b :: c :: d :: rest => by
    simp only [chunks4, strideHeads, List.map_cons, List.headD_cons]
    exact congrArg _ (chunks4_heads rest)

/-! ## C6: container header parsing -/

/-- C6: `File::from` accepts a buffer iff its 7-byte little-endian header
carries the magic `0x414D5858`, version `768` and a section count in
`{1, 2}`, failing otherwise with the specific error for the first violated
field; the five literal byte sequences of the claim behave as stated. -/
theorem c6_container_parse :
    (∀ bin : List Nat,
        (∃ f, Amxmodx.File.from_bytes bin = Except.ok f) ↔
          (7 ≤ bin.length ∧ leBytes (bin.take 4) = Amxmodx.File.MAGIC ∧
            leBytes ((bin.drop 4).take 2) = Amxmodx.File.COMPATIBLE_VERSION ∧
            1 ≤ leBytes ((bin.drop 6).take 1) ∧ leBytes ((bin.drop 6).take 1) ≤ 2)) ∧
    (∀ bin f, Amxmodx.File.from_bytes bin = Except.ok f →
        f.bin = bin ∧ f.sections = leBytes ((bin.drop 6).take 1)) ∧
    (∀ bin : List Nat, bin.length < 4 →
        Amxmodx.File.from_bytes bin = Except.error "Magic EOF") ∧
    (∀ bin : List Nat, 4 ≤ bin.length → leBytes (bin.take 4) ≠ Amxmodx.File.MAGIC →
        Amxmodx.File.from_bytes bin = Except.error "Invalid file magic") ∧
    (∀ bin : List Nat, 6 ≤ bin.length → leBytes (bin.take 4) = Amxmodx.File.MAGIC →
        leBytes ((bin.drop 4).take 2) ≠ Amxmodx.File.COMPATIBLE_VERSION →
        Amxmodx.File.from_bytes bin = Except.error "Incompatible file version") ∧
    (∀ bin : List Nat, 7 ≤ bin.length → leBytes (bin.take 4) = Amxmodx.File.MAGIC →
        leBytes ((bin.drop 4).take 2) = Amxmodx.File.COMPATIBLE_VERSION →
        leBytes ((bin.drop 6).take 1) = 0 →
        Amxmodx.File.from_bytes bin = Except.error "Zero sections amount") ∧
    (∀ bin : List Nat, 7 ≤ bin.length → leBytes (bin.take 4) = Amxmodx.File.MAGIC →
        leBytes ((bin.drop 4).take 2) = Amxmodx.File.COMPATIBLE_VERSION →
        2 < leBytes ((bin.drop 6).take 1) →
        Amxmodx.File.from_bytes bin = Except.error "More than two sections (malicious file?)") ∧
    Amxmodx.File.from_bytes [88, 88, 77, 65, 0, 3, 2] =
      Except.ok { bin := [88, 88, 77, 65, 0, 3, 2], sections := 2 } ∧
    Amxmodx.File.from_bytes [88, 88, 77, 65, 0, 4] = Except.error "Incompatible file version" ∧
    Amxmodx.File.from_bytes [88, 88, 77, 65, 0, 3, 3] =
      Except.error "More than two sections (malicious file?)" ∧
    Amxmodx.File.from_bytes [88, 88, 77, 65, 0, 3, 0] = Except.error "Zero sections amount" ∧
    Amxmodx.File.from_bytes [] = Except.error "Magic EOF" ∧
    Amxmodx.File.from_bytes [0] = Except.error "Magic EOF" := by
  refine ⟨?_, ?_, ?_, ?_, ?_, ?_, ?_,
    by decide, by decide, by decide, by decide, by decide, by decide⟩
  · intro bin
    constructor
    · rintro ⟨f, hf⟩
      unfold Amxmodx.File.from_bytes at hf
      split_ifs at hf with h1 h2 h3 h4 h5 h6 h7 <;>
        first
          | (exact Except.noConfusion hf)
          | exact ⟨by omega, not_not.mp h2, not_not.mp h4, by omega, by omega⟩
    · rintro ⟨h7, hm, hv, h1, h2⟩
      refine ⟨{ bin := bin, sections := leBytes ((bin.drop 6).take 1) }, ?_⟩
      unfold Amxmodx.File.from_bytes
      rw [if_neg (by omega), if_neg (fun h => h hm), if_neg (by omega),
        if_neg (fun h => h hv), if_neg (by omega), if_neg (by omega), if_neg (by omega)]
  · intro bin f hf
    unfold Amxmodx.File.from_bytes at hf
    split_ifs at hf with h1 h2 h3 h4 h5 h6 h7 <;>
      first
        | (exact Except.noConfusion hf)
        | (cases hf; exact ⟨rfl, rfl⟩)
  · intro bin h
    unfold Amxmodx.File.from_bytes
    rw [if_pos h]
  · intro bin h hm
    unfold Amxmodx.File.from_bytes
    rw [if_neg (by omega), if_pos hm]
  · intro bin h hm hv
    unfold Amxmodx.File.from_bytes
    rw [if_neg (by omega), if_neg (fun h => h hm), if_neg (by omega), if_pos hv]
  · intro bin h hm hv hs
    unfold Amxmodx.File.from_bytes
    rw [if_neg (by omega), if_neg (fun h => h hm), if_neg (by omega),
      if_neg (fun h => h hv), if_neg (by omega), if_pos (by omega)]
  · intro bin h hm hv hs
    unfold Amxmodx.File.from_bytes
    rw [if_neg (by omega), if_neg (fun h => h hm), if_neg (by omega),
      if_neg (fun h => h hv), if_neg (by omega), if_neg (by omega), if_pos hs]


/-! ## C9: module header parsing -/

set_option maxHeartbeats 1000000 in
/-- C9: `Plugin::from` enforces magic `0xF1E0`, file version `8` and amx
version `8`; a mismatch fails with the error carrying the expected and the
actual value, any short read fails with a `truncated` error naming the
field, and success reproduces exactly the little-endian header reads (no
defaults). -/
theorem c9_module_header_validation :
    (∀ bin : List Nat,
        (∃ p, Amxmod.Plugin.from_bytes bin = Except.ok p) ↔
          (56 ≤ bin.length ∧ readLE16 bin 4 = Amxmod.AMXMOD_MAGIC ∧
            byteAt bin 6 = Amxmod.FILE_VERSION ∧ byteAt bin 7 = Amxmod.AMX_VERSION)) ∧
    (∀ bin p, Amxmod.Plugin.from_bytes bin = Except.ok p →
        p = { flags := readLE16 bin 8, defsize := readLE16 bin 10, cod := readLE32 bin 12,
              dat := readLE32 bin 16, hea := readLE32 bin 20, stp := readLE32 bin 24,
              cip := readLE32 bin 28, publics := readLE32 bin 32, natives := readLE32 bin 36,
              libraries := readLE32 bin 40, pubvars := readLE32 bin 44, tags := readLE32 bin 48,
              nametable := readLE32 bin 52, bin := bin }) ∧
    (∀ bin : List Nat, 6 ≤ bin.length → readLE16 bin 4 ≠ Amxmod.AMXMOD_MAGIC →
        Amxmod.Plugin.from_bytes bin =
          Except.error (Amxmod.AmxParseError.invalidMagic Amxmod.AMXMOD_MAGIC (readLE16 bin 4))) ∧
    (∀ bin : List Nat, 7 ≤ bin.length → readLE16 bin 4 = Amxmod.AMXMOD_MAGIC →
        byteAt bin 6 ≠ Amxmod.FILE_VERSION →
        Amxmod.Plugin.from_bytes bin =
          Except.error
            (Amxmod.AmxParseError.invalidFileVersion Amxmod.FILE_VERSION (byteAt bin 6))) ∧
    (∀ bin : List Nat, 8 ≤ bin.length → readLE16 bin 4 = Amxmod.AMXMOD_MAGIC →
        byteAt bin 6 = Amxmod.FILE_VERSION → byteAt bin 7 ≠ Amxmod.AMX_VERSION →
        Amxmod.Plugin.from_bytes bin =
          Except.error
            (Amxmod.AmxParseError.invalidAmxVersion Amxmod.AMX_VERSION (byteAt bin 7))) ∧
    (∀ bin : List Nat, bin.length < 4 →
        Amxmod.Plugin.from_bytes bin =
          Except.error (Amxmod.AmxParseError.truncated "EOF on amx size")) ∧
    (∀ bin : List Nat, 4 ≤ bin.length → bin.length < 6 →
        Amxmod.Plugin.from_bytes bin =
          Except.error (Amxmod.AmxParseError.truncated "EOF on amx magic")) ∧
    (∀ bin : List Nat, readLE16 bin 4 = Amxmod.AMXMOD_MAGIC →
        byteAt bin 6 = Amxmod.FILE_VERSION → byteAt bin 7 = Amxmod.AMX_VERSION →
        bin.length < 56 →
        ∃ fld, Amxmod.Plugin.from_bytes bin =
          Except.error (Amxmod.AmxParseError.truncated fld)) := by
  refine ⟨?_, ?_, ?_, ?_, ?_, ?_, ?_, ?_⟩
  · intro bin
    constructor
    · rintro ⟨p, hp⟩
      unfold Amxmod.Plugin.from_bytes at hp
      by_cases g1 : bin.length < 4
      · rw [if_pos g1] at hp; exact Except.noConfusion hp
      rw [if_neg g1] at hp
      by_cases g2 : bin.length < 6
      · rw [if_pos g2] at hp; exact Except.noConfusion hp
      rw [if_neg g2] at hp
      by_cases g3 : readLE16 bin 4 ≠ Amxmod.AMXMOD_MAGIC
      · rw [if_pos g3] at hp; exact Except.noConfusion hp
      rw [if_neg g3] at hp
      by_cases g4 : bin.length < 7
      · rw [if_pos g4] at hp; exact Except.noConfusion hp
      rw [if_neg g4] at hp
      by_cases g5 : byteAt bin 6 ≠ Amxmod.FILE_VERSION
      · rw [if_pos g5] at hp; exact Except.noConfusion hp
      rw [if_neg g5] at hp
      by_cases g6 : bin.length < 8
      · rw [if_pos g6] at hp; exact Except.noConfusion hp
      rw [if_neg g6] at hp
      by_cases g7 : byteAt bin 7 ≠ Amxmod.AMX_VERSION
      · rw [if_pos g7] at hp; exact Except.noConfusion hp
      rw [if_neg g7] at hp
      by_cases g8 : bin.length < 10
      · rw [if_pos g8] at hp; exact Except.noConfusion hp
      rw [if_neg g8] at hp
      by_cases g9 : bin.length < 12
      · rw [if_pos g9] at hp; exact Except.noConfusion hp
      rw [if_neg g9] at hp
      by_cases g10 : bin.length < 16
      · rw [if_pos g10] at hp; exact Except.noConfusion hp
      rw [if_neg g10] at hp
      by_cases g11 : bin.length < 20
      · rw [if_pos g11] at hp; exact Except.noConfusion hp
      rw [if_neg g11] at hp
      by_cases g12 : bin.length < 24
      · rw [if_pos g12] at hp; exact Except.noConfusion hp
      rw [if_neg g12] at hp
      by_cases g13 : bin.length < 28
      · rw [if_pos g13] at hp; exact Except.noConfusion hp
      rw [if_neg g13] at hp
      by_cases g14 : bin.length < 32
      · rw [if_pos g14] at hp; exact Except.noConfusion hp
      rw [if_neg g14] at hp
      by_cases g15 : bin.length < 36
      · rw [if_pos g15] at hp; exact Except.noConfusion hp
      rw [if_neg g15] at hp
      by_cases g16 : bin.length < 40
      · rw [if_pos g16] at hp; exact Except.noConfusion hp
      rw [if_neg g16] at hp
      by_cases g17 : bin.length < 44
      · rw [if_pos g17] at hp; exact Except.noConfusion hp
      rw [if_neg g17] at hp
      by_cases g18 : bin.length < 48
      · rw [if_pos g18] at hp; exact Except.noConfusion hp
      rw [if_neg g18] at hp
      by_cases g19 : bin.length < 52
      · rw [if_pos g19] at hp; exact Except.noConfusion hp
      rw [if_neg g19] at hp
      by_cases g20 : bin.length < 56
      · rw [if_pos g20] at hp; exact Except.noConfusion hp
      rw [if_neg g20] at hp
      exact ⟨by omega, not_not.mp g3, not_not.mp g5, not_not.mp g7⟩
    · rintro ⟨hl, hm, hfv, hav⟩
      refine ⟨{ flags := readLE16 bin 8, defsize := readLE16 bin 10, cod := readLE32 bin 12,
                dat := readLE32 bin 16, hea := readLE32 bin 20, stp := readLE32 bin 24,
                cip := readLE32 bin 28, publics := readLE32 bin 32, natives := readLE32 bin 36,
                libraries := readLE32 bin 40, pubvars := readLE32 bin 44, tags := readLE32 bin 48,
                nametable := readLE32 bin 52, bin := bin }, ?_⟩
      unfold Amxmod.Plugin.from_bytes
      iterate 2 rw [if_neg (by omega)]
      rw [if_neg (fun h => h hm)]
      rw [if_neg (by omega)]
      rw [if_neg (fun h => h hfv)]
      rw [if_neg (by omega)]
      rw [if_neg (fun h => h hav)]
      iterate 13 rw [if_neg (by omega)]
  · intro bin p hp
    unfold Amxmod.Plugin.from_bytes at hp
    by_cases g1 : bin.length < 4
    · rw [if_pos g1] at hp; exact Except.noConfusion hp
    rw [if_neg g1] at hp
    by_cases g2 : bin.length < 6
    · rw [if_pos g2] at hp; exact Except.noConfusion hp
    rw [if_neg g2] at hp
    by_cases g3 : readLE16 bin 4 ≠ Amxmod.AMXMOD_MAGIC
    · rw [if_pos g3] at hp; exact Except.noConfusion hp
    rw [if_neg g3] at hp
    by_cases g4 : bin.length < 7
    · rw [if_pos g4] at hp; exact Except.noConfusion hp
    rw [if_neg g4] at hp
    by_cases g5 : byteAt bin 6 ≠ Amxmod.FILE_VERSION
    · rw [if_pos g5] at hp; exact Except.noConfusion hp
    rw [if_neg g5] at hp
    by_cases g6 : bin.length < 8
    · rw [if_pos g6] at hp; exact Except.noConfusion hp
    rw [if_neg g6] at hp
    by_cases g7 : byteAt bin 7 ≠ Amxmod.AMX_VERSION
    · rw [if_pos g7] at hp; exact Except.noConfusion hp
    rw [if_neg g7] at hp
    by_cases g8 : bin.length < 10
    · rw [if_pos g8] at hp; exact Except.noConfusion hp
    rw [if_neg g8] at hp
    by_cases g9 : bin.length < 12
    · rw [if_pos g9] at hp; exact Except.noConfusion hp
    rw [if_neg g9] at hp
    by_cases g10 : bin.length < 16
    · rw [if_pos g10] at hp; exact Except.noConfusion hp
    rw [if_neg g10] at hp
    by_cases g11 : bin.length < 20
    · rw [if_pos g11] at hp; exact Except.noConfusion hp
    rw [if_neg g11] at hp
    by_cases g12 : bin.length < 24
    · rw [if_pos g12] at hp; exact Except.noConfusion hp
    rw [if_neg g12] at hp
    by_cases g13 : bin.length < 28
    · rw [if_pos g13] at hp; exact Except.noConfusion hp
    rw [if_neg g13] at hp
    by_cases g14 : bin.length < 32
    · rw [if_pos g14] at hp; exact Except.noConfusion hp
    rw [if_neg g14] at hp
    by_cases g15 : bin.length < 36
    · rw [if_pos g15] at hp; exact Except.noConfusion hp
    rw [if_neg g15] at hp
    by_cases g16 : bin.length < 40
    · rw [if_pos g16] at hp; exact Except.noConfusion hp
    rw [if_neg g16] at hp
    by_cases g17 : bin.length < 44
    · rw [if_pos g17] at hp; exact Except.noConfusion hp
    rw [if_neg g17] at hp
    by_cases g18 : bin.length < 48
    · rw [if_pos g18] at hp; exact Except.noConfusion hp
    rw [if_neg g18] at hp
    by_cases g19 : bin.length < 52
    · rw [if_pos g19] at hp; exact Except.noConfusion hp
    rw [if_neg g19] at hp
    by_cases g20 : bin.length < 56
    · rw [if_pos g20] at hp; exact Except.noConfusion hp
    rw [if_neg g20] at hp
    cases hp; rfl
  · intro bin hl hm
    unfold Amxmod.Plugin.from_bytes
    rw [if_neg (by omega), if_neg (by omega), if_pos hm]
  · intro bin hl hm hfv
    unfold Amxmod.Plugin.from_bytes
    rw [if_neg (by omega), if_neg (by omega), if_neg (fun h => h hm), if_neg (by omega),
      if_pos hfv]
  · intro bin hl hm hfv hav
    unfold Amxmod.Plugin.from_bytes
    rw [if_neg (by omega), if_neg (by omega), if_neg (fun h => h hm), if_neg (by omega),
      if_neg (fun h => h hfv), if_neg (by omega), if_pos hav]
  · intro bin hl
    unfold Amxmod.Plugin.from_bytes
    rw [if_pos hl]
  · intro bin h4 h6
    unfold Amxmod.Plugin.from_bytes
    rw [if_neg (by omega), if_pos h6]
  · intro bin hm hfv hav hlen
    unfold Amxmod.Plugin.from_bytes
    by_cases g1 : bin.length < 4
    · exact ⟨_, by rw [if_pos g1]⟩
    rw [if_neg g1]
    by_cases g2 : bin.length < 6
    · exact ⟨_, by rw [if_pos g2]⟩
    rw [if_neg g2]
    by_cases g3 : readLE16 bin 4 ≠ Amxmod.AMXMOD_MAGIC
    · exact absurd hm g3
    rw [if_neg g3]
    by_cases g4 : bin.length < 7
    · exact ⟨_, by rw [if_pos g4]⟩
    rw [if_neg g4]
    by_cases g5 : byteAt bin 6 ≠ Amxmod.FILE_VERSION
    · exact absurd hfv g5
    rw [if_neg g5]
    by_cases g6 : bin.length < 8
    · exact ⟨_, by rw [if_pos g6]⟩
    rw [if_neg g6]
    by_cases g7 : byteAt bin 7 ≠ Amxmod.AMX_VERSION
    · exact absurd hav g7
    rw [if_neg g7]
    by_cases g8 : bin.length < 10
    · exact ⟨_, by rw [if_pos g8]⟩
    rw [if_neg g8]
    by_cases g9 : bin.length < 12
    · exact ⟨_, by rw [if_pos g9]⟩
    rw [if_neg g9]
    by_cases g10 : bin.length < 16
    · exact ⟨_, by rw [if_pos g10]⟩
    rw [if_neg g10]
    by_cases g11 : bin.length < 20
    · exact ⟨_, by rw [if_pos g11]⟩
    rw [if_neg g11]
    by_cases g12 : bin.length < 24
    · exact ⟨_, by rw [if_pos g12]⟩
    rw [if_neg g12]
    by_cases g13 : bin.length < 28
    · exact ⟨_, by rw [if_pos g13]⟩
    rw [if_neg g13]
    by_cases g14 : bin.length < 32
    · exact ⟨_, by rw [if_pos g14]⟩
    rw [if_neg g14]
    by_cases g15 : bin.length < 36
    · exact ⟨_, by rw [if_pos g15]⟩
    rw [if_neg g15]
    by_cases g16 : bin.length < 40
    · exact ⟨_, by rw [if_pos g16]⟩
    rw [if_neg g16]
    by_cases g17 : bin.length < 44
    · exact ⟨_, by rw [if_pos g17]⟩
    rw [if_neg g17]
    by_cases g18 : bin.length < 48
    · exact ⟨_, by rw [if_pos g18]⟩
    rw [if_neg g18]
    by_cases g19 : bin.length < 52
    · exact ⟨_, by rw [if_pos g19]⟩
    rw [if_neg g19]
    by_cases g20 : bin.length < 56
    · exact ⟨_, by rw [if_pos g20]⟩
    rw [if_neg g20]
    omega

/-! ## C1: read_constant address validation -/

/-- C1 counterexample: `is_addr_in_dat` uses `addr <= dat_size`, so the
boundary address `addr = dat_size` (which is ≥ the data-segment size) does
not fail with the invalid-address error — `read_constant_auto_type`
returns an empty constant instead. -/
theorem c1_boundary_addr_counterexample :
    Amxmod.dat_size c1Plugin = 4 ∧
    Amxmod.read_constant_auto_type c1Plugin 4 = some (Except.ok []) ∧
    Amxmod.read_constant_auto_type c1Plugin 4 ≠
      some (Except.error "Invalid constant addr") := by
  decide

/-- C1 (amended): for `addr` strictly greater than the data-segment size
`hea - dat` (with `dat ≤ hea` so the size computation does not underflow),
`read_constant_auto_type` fails with the invalid-address error; for
`addr ≤ dat_size` it never fails with any error (it either panics on
out-of-buffer segment bounds or returns the scanned constant). -/
theorem c1_read_constant_addr_check (p : Amxmod.Plugin) (addr : Nat)
    (hseg : p.dat ≤ p.hea) :
    (Amxmod.dat_size p < addr →
        Amxmod.read_constant_auto_type p addr =
          some (Except.error "Invalid constant addr")) ∧
    (addr ≤ Amxmod.dat_size p →
        ∀ e, Amxmod.read_constant_auto_type p addr ≠ some (Except.error e)) := by
  constructor
  · intro hgt
    simp only [Amxmod.dat_size] at hgt
    unfold Amxmod.read_constant_auto_type
    rw [if_neg (by omega)]
    rw [if_pos]
    simp only [Amxmod.is_addr_in_dat, Amxmod.dat_size, decide_eq_true_eq]
    omega
  · intro hle e
    simp only [Amxmod.dat_size] at hle
    unfold Amxmod.read_constant_auto_type
    rw [if_neg (by omega)]
    rw [if_neg (by
      simp only [Amxmod.is_addr_in_dat, Amxmod.dat_size, decide_eq_true_eq, not_not]
      omega)]
    cases Amxmod.dat_slice p with
    | none => simp
    | some ds => simp

/-- C1 witness: the amended theorem applied at a concrete module and
address. -/
theorem c1_read_constant_addr_check_witness :
    Amxmod.read_constant_auto_type c1Plugin 5 =
      some (Except.error "Invalid constant addr") :=
  (c1_read_constant_addr_check c1Plugin 5 (by decide)).1 (by decide)

/-! ## C3: code-segment slicing -/

/-- C3: at a module with `dat < cod` the width computation `dat - cod` of
`cod_slice` underflows and the function panics (modelled as `none`) instead
of failing with a `MalformedSegment` error; with `cod ≤ dat` within the
buffer it returns the bytes of `[cod, dat)`. -/
theorem c3_cod_slice_underflow_panics :
    Amxmod.cod_slice c3BadPlugin = none ∧
    Amxmod.cod_slice c3GoodPlugin = some [12, 13, 14] := by
  decide

/-! ## C4: constant reading, one byte per 4-byte cell -/

/-- C4: for every in-range address, `read_constant_auto_type` returns
exactly the first byte of each consecutive 4-byte group of the data
segment starting at `addr`, up to the first zero byte (the stride is the
hard-coded `CELLSIZE = 4`); on a data segment beginning with the
one-character-per-cell encoding of `"simple plugin"` it returns exactly
those bytes. -/
theorem c4_read_constant_content :
    (∀ (p : Amxmod.Plugin) (addr : Nat), p.dat ≤ p.hea → p.hea ≤ p.bin.length →
        addr ≤ Amxmod.dat_size p →
        Amxmod.read_constant_auto_type p addr =
          some (Except.ok (Amxmod.specConstant p addr))) ∧
    Amxmod.read_constant_auto_type c4Plugin 0 = some (Except.ok simplePluginBytes) := by
  constructor
  · intro p addr h1 h2 h3
    unfold Amxmod.read_constant_auto_type Amxmod.specConstant
    rw [if_neg (by omega)]
    rw [if_neg (by simp only [Amxmod.is_addr_in_dat, decide_eq_true_eq, not_not]; exact h3)]
    have hds : Amxmod.dat_slice p = some ((p.bin.drop p.dat).take (Amxmod.dat_size p)) := by
      unfold Amxmod.dat_slice
      rw [if_pos ⟨h1, h2⟩]
    rw [hds]
    show some (Except.ok
        (((chunks4 ((((p.bin.drop p.dat).take (Amxmod.dat_size p))).drop addr)).map
            (fun c => c.headD 0)).takeWhile (fun b => b ≠ 0))) = _
    rw [List.drop_take, List.drop_drop, chunks4_heads]
  · decide

/-- C4 witness: the general statement applied at a concrete module and
address. -/
theorem c4_read_constant_content_witness :
    Amxmod.read_constant_auto_type c4Plugin 0 =
      some (Except.ok (Amxmod.specConstant c4Plugin 0)) :=
  c4_read_constant_content.1 c4Plugin 0 (by decide) (by decide) (by decide)

/-! ## C2: terminator before any function start -/

/-- C2: a terminator mnemonic (`OP_RETN` or `OP_BREAK`) arriving before any
`OP_PROC` drives `from_amxmod_plugin` into
`functions.last_mut().unwrap()` on an empty function list: the model
returns `none` (a panic), not a `MalformedBytecode` error. -/
theorem c2_terminator_before_proc_panics :
    Ast.from_amxmod_plugin [] [{ code := Amxmod.OP_RETN, params := [] }] = none ∧
    Ast.from_amxmod_plugin [] [{ code := Amxmod.OP_BREAK, params := [] }] = none := by
  decide

/-! ## Reconstruction loop lemmas -/

theorem reconLoop_map_proc (publics : List Amxmod.Public) :
    ∀ (ops : List Amxmod.Opcode) (fns : List Ast.Function) (stack : List Amxmod.Opcode)
      (out : List Ast.Function × List Amxmod.Opcode),
      Ast.reconLoop publics fns stack ops = some out →
      out.1.map Ast.Function.proc =
        fns.map Ast.Function.proc ++ ops.filter (fun o => o.code = Amxmod.OP_PROC) := by
  intro ops
  induction ops with
  | nil =>
    intro fns stack out h
    simp only [Ast.reconLoop] at h
    cases h
    simp
  | cons op rest ih =>
    intro fns stack out h
    simp only [Ast.reconLoop] at h
    by_cases hp : op.code = Amxmod.OP_PROC
    · rw [if_pos hp] at h
      rw [ih _ _ _ h]
      simp [Ast.Function.fromOpcode, List.filter_cons, hp]
    · rw [if_neg hp] at h
      by_cases ht : op.code = Amxmod.OP_BREAK ∨ op.code = Amxmod.OP_RETN
      · rw [if_pos ht] at h
        split at h
        · exact Option.noConfusion h
        · rename_i last heq
          rw [ih _ _ _ h]
          obtain ⟨ys, rfl⟩ := List.getLast?_eq_some_iff.mp heq
          simp [List.dropLast_concat, List.filter_cons, hp]
      · rw [if_neg ht] at h
        rw [ih _ _ _ h]
        simp [List.filter_cons, hp]

theorem bodies_append (a b : List Ast.Function) :
    Ast.bodies (a ++ b) = Ast.bodies a ++ Ast.bodies b := by
  simp [Ast.bodies]

theorem reconLoop_bodies_sublist (publics : List Amxmod.Public) :
    ∀ (ops : List Amxmod.Opcode) (fns : List Ast.Function) (stack : List Amxmod.Opcode)
      (out : List Ast.Function × List Amxmod.Opcode),
      Ast.reconLoop publics fns stack ops = some out →
      List.Sublist (Ast.bodies out.1) (Ast.bodies fns ++ (stack ++ ops)) := by
  intro ops
  induction ops with
  | nil =>
    intro fns stack out h
    simp only [Ast.reconLoop] at h
    cases h
    exact List.sublist_append_left _ _
  | cons op rest ih =>
    intro fns stack out h
    simp only [Ast.reconLoop] at h
    by_cases hp : op.code = Amxmod.OP_PROC
    · rw [if_pos hp] at h
      have hs := ih _ _ _ h
      rw [bodies_append] at hs
      simp only [Ast.bodies, Ast.Function.fromOpcode, List.map_cons, List.map_nil,
        List.flatten_cons, List.flatten_nil, List.append_nil] at hs
      exact hs.trans
        ((List.Sublist.append_left
          ((List.Sublist.append_left (List.sublist_cons_self op rest) stack)) _))
    · rw [if_neg hp] at h
      by_cases ht : op.code = Amxmod.OP_BREAK ∨ op.code = Amxmod.OP_RETN
      · rw [if_pos ht] at h
        split at h
        · exact Option.noConfusion h
        · rename_i last heq
          have hs := ih _ _ _ h
          obtain ⟨ys, rfl⟩ := List.getLast?_eq_some_iff.mp heq
          rw [List.dropLast_concat] at hs
          have hs' : List.Sublist (Ast.bodies out.1)
              (Ast.bodies ys ++ (last.tree_elements ++ (stack ++ rest))) := by
            simpa [Ast.bodies, List.append_assoc] using hs
          refine hs'.trans ?_
          have h2 : Ast.bodies (ys ++ [last]) ++ (stack ++ op :: rest) =
              Ast.bodies ys ++ (last.tree_elements ++ (stack ++ (op :: rest))) := by
            simp [Ast.bodies, List.append_assoc]
          rw [h2]
          exact (((List.sublist_cons_self op rest).append_left stack).append_left
            last.tree_elements).append_left (Ast.bodies ys)
      · rw [if_neg ht] at h
        have hs := ih _ _ _ h
        simpa [List.append_assoc] using hs

theorem reconLoop_no_marks (publics : List Amxmod.Public) :
    ∀ (tail : List Amxmod.Opcode) (fns : List Ast.Function) (stack : List Amxmod.Opcode),
      (∀ o ∈ tail, o.code ≠ Amxmod.OP_PROC ∧ o.code ≠ Amxmod.OP_BREAK ∧
          o.code ≠ Amxmod.OP_RETN) →
      Ast.reconLoop publics fns stack tail = some (fns, stack ++ tail) := by
  intro tail
  induction tail with
  | nil =>
    intro fns stack _
    simp [Ast.reconLoop]
  | cons op rest ih =>
    intro fns stack hall
    obtain ⟨h1, h2, h3⟩ := hall op (List.mem_cons_self op rest)
    simp only [Ast.reconLoop]
    rw [if_neg h1, if_neg (by rintro (h | h) <;> [exact h2 h; exact h3 h])]
    rw [ih _ _ (fun o ho => hall o (List.mem_cons_of_mem op ho))]
    simp

theorem reconLoop_append (publics : List Amxmod.Public) :
    ∀ (l1 l2 : List Amxmod.Opcode) (fns : List Ast.Function) (stack : List Amxmod.Opcode),
      Ast.reconLoop publics fns stack (l1 ++ l2) =
        (Ast.reconLoop publics fns stack l1).bind
          (fun st => Ast.reconLoop publics st.1 st.2 l2) := by
  intro l1
  induction l1 with
  | nil => intro l2 fns stack; rfl
  | cons op rest ih =>
    intro l2 fns stack
    simp only [List.cons_append, Ast.reconLoop]
    by_cases hp : op.code = Amxmod.OP_PROC
    · rw [if_pos hp, if_pos hp]
      exact ih _ _ _
    · rw [if_neg hp, if_neg hp]
      by_cases ht : op.code = Amxmod.OP_BREAK ∨ op.code = Amxmod.OP_RETN
      · rw [if_pos ht, if_pos ht]
        cases heq : fns.getLast? with
        | none => rfl
        | some last => exact ih _ _ _
      · rw [if_neg ht, if_neg ht]
        exact ih _ _ _

/-! ## C5: reconstruction invariants -/

/-- C5: whenever reconstruction succeeds, the tree holds exactly one
function per `OP_PROC` in the sequence, in order of first appearance
(their starting opcodes are precisely the filtered `OP_PROC`
occurrences), the concatenated bodies form a sublist of the input (every
instruction is attached to at most one body), and trailing pending
instructions after the last terminator are discarded without error. -/
theorem c5_reconstruction_invariants :
    (∀ (publics : List Amxmod.Public) (ops : List Amxmod.Opcode) (t : Ast.Plugin),
        Ast.from_amxmod_plugin publics ops = some t →
        (t.tree_elements.map Ast.Function.proc =
            ops.filter (fun o => o.code = Amxmod.OP_PROC) ∧
          t.tree_elements.length =
            (ops.filter (fun o => o.code = Amxmod.OP_PROC)).length ∧
          List.Sublist (Ast.bodies t.tree_elements) ops)) ∧
    (∀ (publics : List Amxmod.Public) (ops tail : List Amxmod.Opcode),
        (∀ o ∈ tail, o.code ≠ Amxmod.OP_PROC ∧ o.code ≠ Amxmod.OP_BREAK ∧
            o.code ≠ Amxmod.OP_RETN) →
        Ast.from_amxmod_plugin publics (ops ++ tail) =
          Ast.from_amxmod_plugin publics ops) := by
  constructor
  · intro publics ops t h
    unfold Ast.from_amxmod_plugin at h
    cases hrec : Ast.reconLoop publics [] [] ops with
    | none => rw [hrec] at h; exact Option.noConfusion h
    | some st =>
      rw [hrec] at h
      cases h
      have hmap := reconLoop_map_proc publics ops [] [] st hrec
      simp only [List.map_nil, List.nil_append] at hmap
      refine ⟨hmap, ?_, ?_⟩
      · rw [← hmap, List.length_map]
      · have hb := reconLoop_bodies_sublist publics ops [] [] st hrec
        simpa [Ast.bodies] using hb
  · intro publics ops tail hall
    unfold Ast.from_amxmod_plugin
    rw [reconLoop_append publics ops tail]
    cases hrec : Ast.reconLoop publics [] [] ops with
    | none => rfl
    | some st =>
      rw [Option.some_bind, reconLoop_no_marks publics tail st.1 st.2 hall]
      rfl

/-- C5 witness: the invariants applied to the concrete sequence
`[OP_PROC, op 0, OP_RETN]`, whose reconstruction is `c5ExampleTree`. -/
theorem c5_reconstruction_invariants_witness :
    c5ExampleTree.tree_elements.map Ast.Function.proc =
        c5ExampleOps.filter (fun o => o.code = Amxmod.OP_PROC) ∧
      c5ExampleTree.tree_elements.length =
        (c5ExampleOps.filter (fun o => o.code = Amxmod.OP_PROC)).length ∧
      List.Sublist (Ast.bodies c5ExampleTree.tree_elements) c5ExampleOps :=
  c5_reconstruction_invariants.1 [] c5ExampleOps c5ExampleTree (by decide)

/-! ## Symbol-table lemmas -/

theorem parseSym_take8 (bin : List Nat) (base : Nat) (h : base + 8 ≤ bin.length) :
    Amxmod.parseSym bin ((bin.drop base).take 8) =
      if readLE32 bin (base + 4) ≤ bin.length then
        (Amxmod.read_string_zero (bin.drop (readLE32 bin (base + 4)))).map
          (fun nm => (readLE32 bin base, nm))
      else none := by
  unfold Amxmod.parseSym
  rw [if_pos (by simp [List.length_take, List.length_drop]; omega)]
  have hc4 : ((bin.drop base).take 8).take 4 = (bin.drop base).take 4 := by
    simp [List.take_take]
  have hc44 : (((bin.drop base).take 8).drop 4).take 4 = (bin.drop (base + 4)).take 4 := by
    simp [List.drop_take, List.drop_drop, List.take_take]
  rw [hc4, hc44]
  rfl

theorem symTable_loop (bin : List Nat) :
    ∀ (k base : Nat), base + 8 * k ≤ bin.length →
      (chunks8 ((bin.drop base).take (8 * k))).mapM (Amxmod.parseSym bin) =
        Amxmod.specSymTable bin base k := by
  intro k
  induction k with
  | zero =>
    intro base h
    rfl
  | succ k ih =>
    intro base h
    have hlen : ((bin.drop base).take (8 * (k + 1))).length = 8 * (k + 1) := by
      simp only [List.length_take, List.length_drop]
      omega
    rw [chunks8_eq,
      if_neg (by intro he; rw [he] at hlen; simp only [List.length_nil] at hlen; omega),
      if_pos (by rw [hlen]; omega)]
    have ht : ((bin.drop base).take (8 * (k + 1))).take 8 = (bin.drop base).take 8 := by
      rw [List.take_take]
      congr 1
      omega
    have hd : ((bin.drop base).take (8 * (k + 1))).drop 8 =
        (bin.drop (base + 8)).take (8 * k) := by
      rw [List.drop_take, List.drop_drop]
      congr 1
    rw [ht, hd, List.mapM_cons, parseSym_take8 bin base (by omega),
      ih (base + 8) (by omega)]
    simp only [Amxmod.specSymTable]
    by_cases hno : readLE32 bin (base + 4) ≤ bin.length
    · rw [if_pos hno, if_pos hno]
      cases hz : Amxmod.read_string_zero (bin.drop (readLE32 bin (base + 4))) with
      | none => rfl
      | some nm =>
        cases hspec : Amxmod.specSymTable bin (base + 8) k with
        | none => rfl
        | some rest => rfl
    · rw [if_neg hno, if_neg hno]
      rfl

theorem specSymTable_length (bin : List Nat) :
    ∀ (k base : Nat) (l : List (Nat × List Nat)),
      Amxmod.specSymTable bin base k = some l → l.length = k := by
  intro k
  induction k with
  | zero =>
    intro base l h
    simp only [Amxmod.specSymTable] at h
    cases h
    rfl
  | succ k ih =>
    intro base l h
    simp only [Amxmod.specSymTable] at h
    split at h
    · split at h
      · exact Option.noConfusion h
      · split at h
        · exact Option.noConfusion h
        · rename_i rest hrest
          cases h
          simp only [List.length_cons]
          rw [ih (base + 8) rest hrest]
    · exact Option.noConfusion h

/-! ## C8: symbol table decoding -/

/-- C8: with the table bounds inside the buffer and the region split into
8-byte records, `natives` and `publics` return exactly the sequential
record walk of the spec: record `i` is the 4-byte LE address at
`base + 8*i` followed by the 4-byte LE name offset at `base + 8*i + 4`,
and the name is the null-terminated byte string found at that offset. -/
theorem c8_symbol_tables :
    (∀ (p : Amxmod.Plugin) (k : Nat),
        p.natives ≤ p.libraries → p.libraries ≤ p.bin.length →
        p.libraries - p.natives = 8 * k →
        Amxmod.natives_of p =
          (Amxmod.specSymTable p.bin p.natives k).map
            (List.map (fun r => Amxmod.Native.mk r.2 r.1))) ∧
    (∀ (p : Amxmod.Plugin) (k : Nat),
        p.publics ≤ p.natives → p.natives ≤ p.bin.length →
        p.natives - p.publics = 8 * k →
        Amxmod.publics_of p =
          (Amxmod.specSymTable p.bin p.publics k).map
            (List.map (fun r => Amxmod.Public.mk r.2 r.1))) := by
  constructor
  · intro p k h1 h2 h3
    unfold Amxmod.natives_of
    rw [if_pos ⟨h1, h2⟩, h3, symTable_loop p.bin k p.natives (by omega)]
  · intro p k h1 h2 h3
    unfold Amxmod.publics_of
    rw [if_pos ⟨h1, h2⟩, h3, symTable_loop p.bin k p.publics (by omega)]

/-- C8 witness: the native table of a concrete module with one record. -/
theorem c8_symbol_tables_witness :
    Amxmod.natives_of c8Plugin =
      (Amxmod.specSymTable c8Plugin.bin c8Plugin.natives 1).map
        (List.map (fun r => Amxmod.Native.mk r.2 r.1)) :=
  c8_symbol_tables.1 c8Plugin 1 (by decide) (by decide) (by decide)

/-! ## C10: symbol table entry counts -/

/-- C10: a symbol-table region of length `8 * k` yields exactly `k`
entries; in particular equal bounds yield the empty sequence. -/
theorem c10_symbol_table_counts :
    (∀ (p : Amxmod.Plugin) (k : Nat) (l : List Amxmod.Native),
        p.natives ≤ p.libraries → p.libraries ≤ p.bin.length →
        p.libraries - p.natives = 8 * k → Amxmod.natives_of p = some l →
        l.length = k) ∧
    (∀ (p : Amxmod.Plugin) (k : Nat) (l : List Amxmod.Public),
        p.publics ≤ p.natives → p.natives ≤ p.bin.length →
        p.natives - p.publics = 8 * k → Amxmod.publics_of p = some l →
        l.length = k) ∧
    (∀ p : Amxmod.Plugin, p.natives = p.libraries → p.libraries ≤ p.bin.length →
        Amxmod.natives_of p = some []) ∧
    (∀ p : Amxmod.Plugin, p.publics = p.natives → p.natives ≤ p.bin.length →
        Amxmod.publics_of p = some []) := by
  refine ⟨?_, ?_, ?_, ?_⟩
  · intro p k l h1 h2 h3 h4
    unfold Amxmod.natives_of at h4
    rw [if_pos ⟨h1, h2⟩, h3, symTable_loop p.bin k p.natives (by omega)] at h4
    cases hspec : Amxmod.specSymTable p.bin p.natives k with
    | none => rw [hspec] at h4; exact Option.noConfusion h4
    | some l' =>
      rw [hspec] at h4
      cases h4
      rw [List.length_map]
      exact specSymTable_length p.bin k p.natives l' hspec
  · intro p k l h1 h2 h3 h4
    unfold Amxmod.publics_of at h4
    rw [if_pos ⟨h1, h2⟩, h3, symTable_loop p.bin k p.publics (by omega)] at h4
    cases hspec : Amxmod.specSymTable p.bin p.publics k with
    | none => rw [hspec] at h4; exact Option.noConfusion h4
    | some l' =>
      rw [hspec] at h4
      cases h4
      rw [List.length_map]
      exact specSymTable_length p.bin k p.publics l' hspec
  · intro p h1 h2
    unfold Amxmod.natives_of
    rw [if_pos ⟨le_of_eq h1, h2⟩]
    have h0 : p.libraries - p.natives = 0 := by omega
    rw [h0]
    rfl
  · intro p h1 h2
    unfold Amxmod.publics_of
    rw [if_pos ⟨le_of_eq h1, h2⟩]
    have h0 : p.natives - p.publics = 0 := by omega
    rw [h0]
    rfl

/-- C10 witness: the concrete one-record module has exactly one native
entry. -/
theorem c10_symbol_table_counts_witness :
    ∃ l : List Amxmod.Native, Amxmod.natives_of c8Plugin = some l ∧ l.length = 1 := by
  refine ⟨[Amxmod.Native.mk [97, 98] 1], by decide, ?_⟩
  exact c10_symbol_table_counts.1 c8Plugin 1 [Amxmod.Native.mk [97, 98] 1]
    (by decide) (by decide) (by decide) (by decide)

/-! ## C7: instruction decoding -/

/-- C7: the decoder driver skips the fixed two-cell (8-byte) prolog of the
code segment and then decodes until the cursor reaches the segment end:
on success the remaining segment is tiled exactly by decoding steps (each
consuming the 4-byte tag plus its mnemonic's declared operand bytes, a
case table's width coming from its count cell) whose emitted records —
zero, one, or several per step — concatenate to the returned sequence,
and every returned mnemonic was resolved by the rule table; an unknown
mnemonic fails with the unknown-opcode error, an operand or table read
past the segment end (or a trailing partial tag) fails with the
truncation error, and in each case the whole decode aborts with no
partial result. -/
theorem c7_decoder_claims :
    (∀ (rules : Nat → Option Amxmod.DecodeRule) (fuel : Nat),
        Amxmod.decodeLoop rules fuel [] = Except.ok []) ∧
    (∀ (rules : Nat → Option Amxmod.DecodeRule) (fuel : Nat) (seg : List Nat)
        (l : List Amxmod.Opcode),
        seg.length ≤ fuel → Amxmod.decodeLoop rules fuel seg = Except.ok l →
        ∃ steps : List (Nat × List Amxmod.Opcode),
          (steps.map Prod.fst).sum = seg.length ∧
          l = (steps.map Prod.snd).flatten ∧
          (∀ s ∈ steps, 4 ≤ s.1) ∧
          (∀ o ∈ l, (rules o.code).isSome = true)) ∧
    (∀ (rules : Nat → Option Amxmod.DecodeRule) (fuel : Nat) (seg : List Nat),
        seg.length ≤ fuel → 4 ≤ seg.length → rules (leBytes (seg.take 4)) = none →
        Amxmod.decodeLoop rules fuel seg = Except.error "UnknownOpcode") ∧
    (∀ (rules : Nat → Option Amxmod.DecodeRule) (fuel : Nat) (seg : List Nat),
        seg.length ≤ fuel → 4 ≤ seg.length → seg.length < 8 →
        rules (leBytes (seg.take 4)) = some Amxmod.DecodeRule.oneCell →
        Amxmod.decodeLoop rules fuel seg = Except.error "Truncated") ∧
    (∀ (rules : Nat → Option Amxmod.DecodeRule) (fuel : Nat) (seg : List Nat),
        seg.length ≤ fuel → 4 ≤ seg.length →
        rules (leBytes (seg.take 4)) = some Amxmod.DecodeRule.caseTable →
        (seg.length < 8 ∨ seg.length < 8 + 4 * leBytes ((seg.drop 4).take 4)) →
        Amxmod.decodeLoop rules fuel seg = Except.error "Truncated") ∧
    (∀ (rules : Nat → Option Amxmod.DecodeRule) (fuel : Nat) (seg : List Nat),
        1 ≤ seg.length → seg.length < 4 →
        Amxmod.decodeLoop rules fuel seg = Except.error "Truncated") ∧
    (∀ (rules : Nat → Option Amxmod.DecodeRule) (p : Amxmod.Plugin) (seg : List Nat),
        Amxmod.cod_slice p = some seg → 8 ≤ seg.length →
        Amxmod.opcodes_of rules p =
          some (Amxmod.decodeLoop rules (seg.length - 8) (seg.drop 8))) := by
  refine ⟨?_, ?_, ?_, ?_, ?_, ?_, ?_⟩
  · intro rules fuel
    cases fuel <;> rfl
  · intro rules fuel
    induction fuel with
    | zero =>
      intro seg l hlen h
      cases seg with
      | nil =>
        cases h
        exact ⟨[], by simp⟩
      | cons b rest => simp at hlen
    | succ fuel ih =>
      intro seg l hlen h
      cases seg with
      | nil =>
        cases h
        exact ⟨[], by simp⟩
      | cons b rest =>
        simp only [Amxmod.decodeLoop] at h
        split at h
        · exact Except.noConfusion h
        · rename_i h4
          split at h
          · exact Except.noConfusion h
          · rename_i hr
            split at h
            · exact Except.noConfusion h
            · rename_i tail heq
              cases h
              simp only [List.length_cons] at h4 hlen
              have hdl : ((b :: rest).drop 4).length ≤ fuel := by
                simp only [List.length_drop, List.length_cons]
                omega
              obtain ⟨steps, hsum, hfl, hw, hres⟩ := ih _ _ hdl heq
              refine ⟨(4, [{ code := leBytes ((b :: rest).take 4), params := [] }]) :: steps,
                ?_, ?_, ?_, ?_⟩
              · simp only [List.map_cons, List.sum_cons, List.length_cons]
                simp only [List.length_drop, List.length_cons] at hsum
                omega
              · simp [hfl]
              · intro s hs
                cases List.mem_cons.mp hs with
                | inl hh => subst hh; exact Nat.le_refl 4
                | inr hh => exact hw s hh
              · intro o ho
                cases List.mem_cons.mp ho with
                | inl hh => subst hh; rw [hr]; rfl
                | inr hh => exact hres o hh
          · rename_i hr
            split at h
            · exact Except.noConfusion h
            · rename_i h8
              split at h
              · exact Except.noConfusion h
              · rename_i tail heq
                cases h
                simp only [List.length_cons] at h4 h8 hlen
                have hdl : ((b :: rest).drop 8).length ≤ fuel := by
                  simp only [List.length_drop, List.length_cons]
                  omega
                obtain ⟨steps, hsum, hfl, hw, hres⟩ := ih _ _ hdl heq
                refine ⟨(8, [Amxmod.Opcode.mk (leBytes ((b :: rest).take 4))
                      [leBytes (((b :: rest).drop 4).take 4)]]) :: steps,
                  ?_, ?_, ?_, ?_⟩
                · simp only [List.map_cons, List.sum_cons, List.length_cons]
                  simp only [List.length_drop, List.length_cons] at hsum
                  omega
                · simp [hfl]
                · intro s hs
                  cases List.mem_cons.mp hs with
                  | inl hh => subst hh; exact Nat.le_add_right 4 4
                  | inr hh => exact hw s hh
                · intro o ho
                  cases List.mem_cons.mp ho with
                  | inl hh => subst hh; rw [hr]; rfl
                  | inr hh => exact hres o hh
          · rename_i hr
            split at h
            · exact Except.noConfusion h
            · rename_i h8
              split at h
              · exact Except.noConfusion h
              · rename_i hn
                split at h
                · exact Except.noConfusion h
                · rename_i tail heq
                  cases h
                  simp only [List.length_cons] at h4 h8 hn hlen
                  have hdl : ((b :: rest).drop
                      (8 + 4 * leBytes (((b :: rest).drop 4).take 4))).length ≤ fuel := by
                    simp only [List.length_drop, List.length_cons]
                    omega
                  obtain ⟨steps, hsum, hfl, hw, hres⟩ := ih _ _ hdl heq
                  refine ⟨(8 + 4 * leBytes (((b :: rest).drop 4).take 4),
                      (chunks4 (((b :: rest).drop 8).take
                          (4 * leBytes (((b :: rest).drop 4).take 4)))).map
                        (fun c => Amxmod.Opcode.mk (leBytes ((b :: rest).take 4))
                          [leBytes c])) :: steps,
                    ?_, ?_, ?_, ?_⟩
                  · simp only [List.map_cons, List.sum_cons, List.length_cons]
                    simp only [List.length_drop, List.length_cons] at hsum
                    omega
                  · simp [hfl]
                  · intro s hs
                    cases List.mem_cons.mp hs with
                    | inl hh => subst hh; exact Nat.le_add_right_of_le (Nat.le_add_right 4 4)
                    | inr hh => exact hw s hh
                  · intro o ho
                    cases List.mem_append.mp ho with
                    | inl hh =>
                      obtain ⟨c, _, rfl⟩ := List.mem_map.mp hh
                      rw [hr]
                      rfl
                    | inr hh => exact hres o hh
  · intro rules fuel seg hlen h4 hr
    cases seg with
    | nil => simp at h4
    | cons b rest =>
      cases fuel with
      | zero => simp at hlen
      | succ fuel =>
        simp only [Amxmod.decodeLoop]
        rw [if_neg (by omega)]
        split
        · rfl
        all_goals rename_i heq; rw [hr] at heq; exact Option.noConfusion heq
  · intro rules fuel seg hlen h4 h8 hr
    cases seg with
    | nil => simp at h4
    | cons b rest =>
      cases fuel with
      | zero => simp at hlen
      | succ fuel =>
        simp only [Amxmod.decodeLoop]
        rw [if_neg (by omega)]
        split
        · rename_i heq
          rw [hr] at heq
          exact Option.noConfusion heq
        · rename_i heq
          rw [hr] at heq
          simp at heq
        · rw [if_pos h8]
        · rename_i heq
          rw [hr] at heq
          simp at heq
  · intro rules fuel seg hlen h4 hr htr
    cases seg with
    | nil => simp at h4
    | cons b rest =>
      cases fuel with
      | zero => simp at hlen
      | succ fuel =>
        simp only [Amxmod.decodeLoop]
        rw [if_neg (by omega)]
        split
        · rename_i heq
          rw [hr] at heq
          exact Option.noConfusion heq
        · rename_i heq
          rw [hr] at heq
          simp at heq
        · rename_i heq
          rw [hr] at heq
          simp at heq
        · by_cases hl8 : (b :: rest).length < 8
          · rw [if_pos hl8]
          · rw [if_neg hl8]
            cases htr with
            | inl hh => omega
            | inr hh => rw [if_pos hh]
  · intro rules fuel seg h1 h4
    cases seg with
    | nil => simp at h1
    | cons b rest =>
      cases fuel with
      | zero => rfl
      | succ fuel =>
        simp only [Amxmod.decodeLoop]
        rw [if_pos h4]
  · intro rules p seg hc h8
    unfold Amxmod.opcodes_of
    rw [hc]
    change (if seg.length < 8 then none
      else some (Amxmod.decodeLoop rules (seg.drop 8).length (seg.drop 8))) = _
    rw [if_neg (by omega)]
    rw [List.length_drop]

/-- C7 witness: the success characterisation applied to a concrete
28-byte segment holding a no-operand instruction, a one-cell instruction
and a two-entry case table unrolled into two synthetic records. -/
theorem c7_decoder_claims_witness :
    ∃ steps : List (Nat × List Amxmod.Opcode),
      (steps.map Prod.fst).sum = c7Seg.length ∧
      ([Amxmod.Opcode.mk 3 [], Amxmod.Opcode.mk 1 [7],
          Amxmod.Opcode.mk 2 [10], Amxmod.Opcode.mk 2 [20]] : List Amxmod.Opcode) =
        (steps.map Prod.snd).flatten ∧
      (∀ s ∈ steps, 4 ≤ s.1) ∧
      (∀ o ∈ ([Amxmod.Opcode.mk 3 [], Amxmod.Opcode.mk 1 [7],
          Amxmod.Opcode.mk 2 [10], Amxmod.Opcode.mk 2 [20]] : List Amxmod.Opcode),
        (c7Rules o.code).isSome = true) :=
  c7_decoder_claims.2.1 c7Rules 28 c7Seg
    [Amxmod.Opcode.mk 3 [], Amxmod.Opcode.mk 1 [7],
      Amxmod.Opcode.mk 2 [10], Amxmod.Opcode.mk 2 [20]]
    (by decide) (by decide)

/-- C6 witness: the invalid-magic case applied at a concrete buffer. -/
theorem c6_container_parse_witness :
    Amxmodx.File.from_bytes [0, 0, 0, 0] = Except.error "Invalid file magic" :=
  c6_container_parse.2.2.2.1 [0, 0, 0, 0] (by decide) (by decide)

/-- C9 witness: the truncated-size case applied at the empty buffer. -/
theorem c9_module_header_validation_witness :
    Amxmod.Plugin.from_bytes [] =
      Except.error (Amxmod.AmxParseError.truncated "EOF on amx size") :=
  c9_module_header_validation.2.2.2.2.2.1 [] (by decide)
